import Mathlib

/-!
Shallow embedding of `src/benchmark-script.py` (a LevelDB-vs-filesystem
benchmarking script) and proofs about it.

Modelling conventions:
* Python floats (timestamps, elapsed times) are modelled as `ℚ`.
* `time.time()` is modelled by a clock stream `timeOf : ℕ → ℕ → ℚ` read at a
  tick counter that advances on every call; monotonicity of the wall clock is
  an explicit hypothesis where needed.
* `random.choices` is modelled by a stream of picks `rand : ℕ → Fin 62` into
  the 62-character alphabet `string.ascii_letters + string.digits`, read at a
  position counter.
* The LevelDB store and the ext4 directory are association lists
  (key/filename ↦ contents); a write prepends, a read uses `List.lookup`.
* A raised Python exception (e.g. `FileNotFoundError` on a read of a missing
  file) is modelled by `Option`: `none` means the exception propagates.
* The thread pool is linearised: tasks are processed in queue order.  The
  queue shape itself (tasks followed by `None` terminators) is modelled
  separately by `taskQueueContents` / `workerTake` for the claims about
  worker termination.
-/

namespace Benchmark

/-- `BenchmarkConfig` from the script (lines 16–22): `num_files`, `file_size`,
`num_workers`, `concurrent_requests`, `base_path`. -/
structure BenchmarkConfig where
  num_files : ℕ
  file_size : ℕ
  num_workers : ℕ
  concurrent_requests : ℕ
  base_path : String
deriving DecidableEq, Repr

/-- `string.ascii_letters + string.digits`: the population that
`generate_random_data` samples from. -/
def alphabetChars : List Char :=
  "abcdefghijklmnopqrstuvwxyzABCDEFGHIJKLMNOPQRSTUVWXYZ0123456789".toList

/-- `StorageBenchmark.generate_random_data` (lines 45–47):
`''.join(random.choices(string.ascii_letters + string.digits, k=size))`.
The random source is the stream `rand` of uniform picks into the alphabet,
read starting at position `rpos`. -/
def generate_random_data (rand : ℕ → Fin 62) (rpos : ℕ) (size : ℕ) : String :=
  String.mk ((List.range size).map fun j =>
    alphabetChars.get (Fin.cast
      (show (62 : ℕ) = alphabetChars.length by decide) (rand (rpos + j))))

/-- The world a run acts on: the LevelDB store, the ext4 directory, the wall
clock (stream plus tick counter) and the random source (stream plus position
counter). -/
structure World where
  kv : List (String × String)
  fs : List (String × String)
  timeOf : ℕ → ℚ
  tick : ℕ
  rand : ℕ → Fin 62
  rpos : ℕ

/-- A `(operation, storage_type, elapsed)` triple pushed on the result queue
(line 89). -/
def TimingResult := String × String × ℚ

/-- `StorageBenchmark.process_task` (lines 61–89).  Dispatch is by string
comparison exactly as in the source: anything other than `'write'` falls
through to the read branch, anything other than `'leveldb'` falls through to
the ext4 branch.  A read of a missing ext4 file raises (`none`); a LevelDB
`get` of a missing key returns `None` silently and does not raise. -/
def process_task (cfg : BenchmarkConfig) (operation storage_type : String)
    (index : ℕ) (w : World) : Option (TimingResult × World) :=
  if operation = "write" then
    let data := generate_random_data w.rand w.rpos cfg.file_size
    let w1 : World := { w with rpos := w.rpos + cfg.file_size }
    let start_time := w1.timeOf w1.tick
    let w2 : World := { w1 with tick := w1.tick + 1 }
    if storage_type = "leveldb" then
      let w3 : World := { w2 with kv := ("key_" ++ toString index, data) :: w2.kv }
      let end_time := w3.timeOf w3.tick
      let w4 : World := { w3 with tick := w3.tick + 1 }
      some ((operation, storage_type, end_time - start_time), w4)
    else
      let w3 : World := { w2 with fs := ("file_" ++ toString index, data) :: w2.fs }
      let end_time := w3.timeOf w3.tick
      let w4 : World := { w3 with tick := w3.tick + 1 }
      some ((operation, storage_type, end_time - start_time), w4)
  else
    let start_time := w.timeOf w.tick
    let w2 : World := { w with tick := w.tick + 1 }
    if storage_type = "leveldb" then
      let _ := List.lookup ("key_" ++ toString index) w2.kv
      let end_time := w2.timeOf w2.tick
      let w4 : World := { w2 with tick := w2.tick + 1 }
      some ((operation, storage_type, end_time - start_time), w4)
    else
      match List.lookup ("file_" ++ toString index) w2.fs with
      | none => none
      | some _ =>
        let end_time := w2.timeOf w2.tick
        let w4 : World := { w2 with tick := w2.tick + 1 }
        some ((operation, storage_type, end_time - start_time), w4)

/-- The linearised execution of one pass's tasks (the worker-pool drain):
process each queued index in order, threading the world; a raised exception
aborts (for the live script it would stall the result collection forever, so
no value is ever returned either way). -/
def runTasks (cfg : BenchmarkConfig) (operation storage_type : String) :
    List ℕ → World → Option (List TimingResult × World)
  | [], w => some ([], w)
  | i :: is, w =>
    match process_task cfg operation storage_type i w with
    | none => none
    | some (r, w1) =>
      match runTasks cfg operation storage_type is w1 with
      | none => none
      | some (rs, w2) => some (r :: rs, w2)

/-- `StorageBenchmark.run_parallel_benchmark` (lines 91–111): enqueue the
`num_files` tasks `(operation, storage_type, i)` for `i < num_files`, run
them, then keep only the elapsed-time component `result[2]` of each collected
result (line 109). -/
def run_parallel_benchmark (cfg : BenchmarkConfig)
    (operation storage_type : String) (w : World) : Option (List ℚ × World) :=
  match runTasks cfg operation storage_type (List.range cfg.num_files) w with
  | none => none
  | some (rs, w1) => some (rs.map (fun r => r.2.2), w1)

/-- The contents of the task queue as filled by lines 93–99: the
`num_files` task triples, followed by `num_workers` `None` terminators. -/
def taskQueueContents (cfg : BenchmarkConfig) (operation storage_type : String) :
    List (Option (String × String × ℕ)) :=
  ((List.range cfg.num_files).map fun i => some (operation, storage_type, i)) ++
    List.replicate cfg.num_workers none

/-- The worker loop of `StorageBenchmark.worker` (lines 49–59), viewed through
the sequence of queue entries a single worker pops: it keeps pulling tasks and
stops at the first `None` terminator, consuming it. -/
def workerTake : List (Option (String × String × ℕ)) →
    List (Option (String × String × ℕ))
  | [] => []
  | none :: _ => [none]
  | some t :: rest => some t :: workerTake rest

/-- Computable floor of a rational (`⌊q⌋ = q.num / q.den`, `Rat.floor_def`);
used so that concrete percentile values evaluate. -/
def ratFloor (q : ℚ) : ℤ := q.num / q.den

/-- Linear interpolation at virtual index `h` into the sorted sample list `s`,
as `np.percentile(..., interpolation='linear')` does: with `k = ⌊h⌋`, the
value is `s[k] + (h - k) * (s[k+1] - s[k])`, the upper index clamped to the
last element. -/
def interpAt (s : List ℚ) (h : ℚ) : ℚ :=
  let k : ℕ := (ratFloor h).toNat
  let a := s.getD k 0
  let b := s.getD (min (k + 1) (s.length - 1)) 0
  a + (h - (k : ℚ)) * (b - a)

/-- `np.percentile(times, q)` (linear interpolation): sort the samples and
interpolate at virtual index `(q/100) * (n-1)`. -/
def percentile (times : List ℚ) (q : ℚ) : ℚ :=
  let s := List.insertionSort (fun a b : ℚ => a ≤ b) times
  interpAt s ((q / 100) * ((s.length : ℚ) - 1))

/-- The three percentiles computed by `StorageBenchmark.calculate_percentiles`
(lines 135–141). -/
structure Percentiles where
  p50 : ℚ
  p95 : ℚ
  p99 : ℚ
deriving DecidableEq, Repr

/-- `StorageBenchmark.calculate_percentiles` (lines 135–141). -/
def calculate_percentiles (times : List ℚ) : Percentiles :=
  ⟨percentile times 50, percentile times 95, percentile times 99⟩

/-- `statistics.mean`: raises `StatisticsError` on an empty list (`none`),
otherwise the arithmetic mean. -/
def mean (xs : List ℚ) : Option ℚ :=
  if xs.length = 0 then none else some (xs.sum / (xs.length : ℚ))

/-- `statistics.stdev`: raises `StatisticsError` (`none`) when there are
fewer than two samples.  We carry the sample variance (the square of the
standard deviation) so as to stay inside `ℚ`; its domain of definition — all
the claims concern — is exactly that of `statistics.stdev`. -/
def stdev (xs : List ℚ) : Option ℚ :=
  if xs.length < 2 then none
  else some ((xs.map (fun x => (x - xs.sum / (xs.length : ℚ)) ^ 2)).sum /
    ((xs.length : ℚ) - 1))

/-- The `throughput = self.config.num_files / sum(times)` line (line 154):
a `ZeroDivisionError` (`none`) when the elapsed times sum to zero. -/
def throughput (cfg : BenchmarkConfig) (times : List ℚ) : Option ℚ :=
  if times.sum = 0 then none else some ((cfg.num_files : ℚ) / times.sum)

/-- The statistics printed for one `(operation, storage)` cell by
`print_results` (lines 150–162). -/
structure Summary where
  avg_time : ℚ
  std_dev_sq : ℚ
  p50 : ℚ
  p95 : ℚ
  p99 : ℚ
  tput : ℚ
deriving DecidableEq, Repr

/-- One `(operation, storage)` iteration of the `print_results` loop body
(lines 150–162), in source order: mean, stdev, percentiles, throughput; any
raised error propagates (`none`). -/
def summarize (cfg : BenchmarkConfig) (times : List ℚ) : Option Summary := do
  let avg ← mean times
  let sd ← stdev times
  let ps := calculate_percentiles times
  let tp ← throughput cfg times
  some ⟨avg, sd, ps.p50, ps.p95, ps.p99, tp⟩

/-- The results table assembled by `run_benchmark` (lines 121–130):
`self.results[operation][storage]`. -/
structure Results where
  write_leveldb : List ℚ
  write_ext4 : List ℚ
  read_leveldb : List ℚ
  read_ext4 : List ℚ
deriving DecidableEq, Repr

/-- `StorageBenchmark.print_results` (lines 143–162): iterate `operation` over
`write, read` and `storage` over `leveldb, ext4`, summarizing each cell; the
first raised error propagates. -/
def print_results (cfg : BenchmarkConfig) (r : Results) :
    Option (List (String × String × Summary)) := do
  let a ← summarize cfg r.write_leveldb
  let b ← summarize cfg r.write_ext4
  let c ← summarize cfg r.read_leveldb
  let d ← summarize cfg r.read_ext4
  some [("write", "leveldb", a), ("write", "ext4", b),
        ("read", "leveldb", c), ("read", "ext4", d)]

/-- What one full `run_benchmark` produces: the order in which the four
passes ran, the assembled results table, the report `print_results` computes
from it, and the final world. -/
structure RunOutput where
  passTrace : List (String × String)
  results : Results
  report : Option (List (String × String × Summary))
  world : World

/-- `StorageBenchmark.run_benchmark` (lines 113–133): the four passes in the
order the `self.results` dict literal evaluates them — write/leveldb,
write/ext4, read/leveldb, read/ext4 — then the Reporter over the completed
table. -/
def run_benchmark (cfg : BenchmarkConfig) (w : World) : Option RunOutput := do
  let (wl, w1) ← run_parallel_benchmark cfg "write" "leveldb" w
  let (we, w2) ← run_parallel_benchmark cfg "write" "ext4" w1
  let (rl, w3) ← run_parallel_benchmark cfg "read" "leveldb" w2
  let (re, w4) ← run_parallel_benchmark cfg "read" "ext4" w3
  let table : Results := ⟨wl, we, rl, re⟩
  some ⟨[("write", "leveldb"), ("write", "ext4"),
         ("read", "leveldb"), ("read", "ext4")],
        table, print_results cfg table, w4⟩

/-! ### Concrete inputs used by counterexamples and witnesses -/

/-- A configuration with a single file per pass (and empty payloads so runs
evaluate quickly). -/
def cfgOne : BenchmarkConfig := ⟨1, 0, 1, 20, "/tmp/benchmark"⟩

/-- A configuration with two files per pass. -/
def cfgTwo : BenchmarkConfig := ⟨2, 0, 1, 20, "/tmp/benchmark"⟩

/-- A configuration with one file and two workers. -/
def cfgTwoWorkers : BenchmarkConfig := ⟨1, 0, 2, 20, "/tmp/benchmark"⟩

/-- A fixed pick of the random stream. -/
def zeroPick : Fin 62 := ⟨0, by decide⟩

/-- An empty store and directory, the integer clock and a constant random
stream. -/
def freshWorld : World := ⟨[], [], fun n => (n : ℚ), 0, fun _ => zeroPick, 0⟩

/-- A task outcome with the echoed `(operation, storage_type)` labels
stripped: only the elapsed time and the world effect remain.  (Line 89
returns the caller's own strings back, so two calls that take the same
branch differ at most in these labels.) -/
def resultEffect (o : Option (TimingResult × World)) : Option (ℚ × World) :=
  o.map fun p => (p.1.2.2, p.2)

/-- Replace only the `concurrent_requests` field of a configuration; two
configurations differ only in `concurrent_requests` exactly when one is the
other under this update. -/
def setConcurrentRequests (cfg : BenchmarkConfig) (c : ℕ) : BenchmarkConfig :=
  ⟨cfg.num_files, cfg.file_size, cfg.num_workers, c, cfg.base_path⟩

/-- The wall clock never goes backwards between consecutive readings. -/
def ClockMono (w : World) : Prop := ∀ n : ℕ, w.timeOf n ≤ w.timeOf (n + 1)

/-- The world after the two write/ext4 tasks of the C1 witness run. -/
def wAfterWrites : World :=
  ⟨[], [("file_1", ""), ("file_0", "")], fun n => (n : ℚ), 4, fun _ => zeroPick, 0⟩

/-- The number of terminator (`None`) entries in a queue fragment. -/
def noneCount (l : List (Option (String × String × ℕ))) : ℕ :=
  l.countP (fun x => x.isNone)

/-! ### Helper lemmas -/

theorem alphabetChars_length : alphabetChars.length = 62 := by decide

theorem ratFloor_eq_floor (q : ℚ) : ratFloor q = ⌊q⌋ := Rat.floor_def.symm

theorem toList_generate (rand : ℕ → Fin 62) (rpos size : ℕ) :
    (generate_random_data rand rpos size).toList =
      (List.range size).map (fun j =>
        alphabetChars.get (Fin.cast
          (show (62 : ℕ) = alphabetChars.length by decide) (rand (rpos + j)))) := rfl

theorem length_generate (rand : ℕ → Fin 62) (rpos size : ℕ) :
    (generate_random_data rand rpos size).length = size := by
  show ((List.range size).map _).length = size
  rw [List.length_map, List.length_range]

/-! ### C4 -/

/-- C4: `generate_random_data(size)` returns a string of length exactly
`size`, all of whose characters are drawn from the letters-plus-digits
alphabet; each character is the alphabet entry selected by the corresponding
pick of the random source, and the output depends on nothing but the size and
the picks the call consumes (no persisted state). -/
theorem C4_generate_random_data_spec (rand : ℕ → Fin 62) (rpos size : ℕ) :
    (generate_random_data rand rpos size).length = size ∧
    (∀ c ∈ (generate_random_data rand rpos size).toList, c ∈ alphabetChars) ∧
    ∀ rand2 : ℕ → Fin 62, ∀ rpos2 : ℕ,
      (∀ j < size, rand (rpos + j) = rand2 (rpos2 + j)) →
      generate_random_data rand rpos size = generate_random_data rand2 rpos2 size := by
  refine ⟨length_generate rand rpos size, ?_, ?_⟩
  · intro c hc
    rw [toList_generate] at hc
    obtain ⟨j, _, rfl⟩ := List.mem_map.mp hc
    exact List.get_mem _ _ _
  · intro rand2 rpos2 hpick
    show String.mk _ = String.mk _
    congr 1
    refine List.map_congr_left ?_
    intro j hj
    rw [hpick j (List.mem_range.mp hj)]

/-- Witness for C4 at a concrete size and two concrete random sources that
agree on the consumed picks. -/
theorem C4_witness :
    (generate_random_data (fun _ => zeroPick) 0 3).length = 3 ∧
    (∀ c ∈ (generate_random_data (fun _ => zeroPick) 0 3).toList, c ∈ alphabetChars) ∧
    generate_random_data (fun _ => zeroPick) 0 3 =
      generate_random_data (fun _ => zeroPick) 5 3 := by
  have h := C4_generate_random_data_spec (fun _ => zeroPick) 0 3
  exact ⟨h.1, h.2.1, h.2.2 (fun _ => zeroPick) 5 (fun j _ => rfl)⟩

/-! ### C2 -/

/-- C2 counterexample: with `num_files = 1 < 2` the benchmark run itself
succeeds, but the Reporter reaches the unguarded `statistics.stdev` call on a
single-sample list and the error propagates — the error case is reached, not
guarded. -/
theorem C2_counterexample :
    (run_benchmark cfgOne freshWorld).map RunOutput.report = some none := by
  with_unfolding_all rfl

/-- C2 (amended): the Reporter's sample standard deviation computation is NOT
guarded: for any cell with fewer than 2 samples (so for every configuration
with `num_files < 2`), the per-cell reporting computation raises
(`statistics.mean` on an empty list, `statistics.stdev` on a shorter-than-2
list) and the error propagates. -/
theorem C2_amended_summarize_errors (cfg : BenchmarkConfig) (times : List ℚ)
    (h : times.length < 2) : summarize cfg times = none := by
  rcases times with _ | ⟨a, _ | ⟨b, m⟩⟩
  · simp [summarize, mean]
  · simp [summarize, mean, stdev]
  · simp only [List.length_cons] at h
    omega

/-- Witness for the amended C2 at a concrete singleton sample list. -/
theorem C2_witness : summarize cfgOne [5] = none :=
  C2_amended_summarize_errors cfgOne [5] (by decide)

/-! ### C3 -/

/-- C3 counterexample: a LevelDB read of index 0 on a completely fresh world
— no write has ever happened — succeeds (`db.get` returns `None` silently
rather than raising), so read-before-write does NOT fail for the key-value
backend. -/
theorem C3_counterexample :
    (process_task cfgOne "read" "leveldb" 0 freshWorld).isSome = true := by
  with_unfolding_all rfl

/-- C3 (amended): a read of index `i` before any write of index `i` fails
deterministically for the filesystem backend (opening the missing file
raises), but for the key-value backend it silently succeeds and returns
nothing. -/
theorem C3_amended_read_before_write
    (cfg : BenchmarkConfig) (i : ℕ) (w : World)
    (hmiss : List.lookup ("file_" ++ toString i) w.fs = none) :
    process_task cfg "read" "ext4" i w = none ∧
    ∀ w2 : World, (process_task cfg "read" "leveldb" i w2).isSome = true := by
  constructor
  · show (match List.lookup ("file_" ++ toString i) w.fs with
      | none => none
      | some _ => _) = none
    rw [hmiss]
  · intro w2
    rfl

/-- Witness for the amended C3 on the fresh world. -/
theorem C3_witness :
    process_task cfgOne "read" "ext4" 0 freshWorld = none ∧
    ∀ w2 : World, (process_task cfgOne "read" "leveldb" 0 w2).isSome = true :=
  C3_amended_read_before_write cfgOne 0 freshWorld rfl

/-! ### C10 -/

/-- C10: dispatch in `process_task` is non-exhaustive fall-through — any
operation other than `'write'` is processed as a read, and any storage type
other than `'leveldb'` is processed against the filesystem backend; nothing
is ever rejected.  "Processed as" means the timing and the world effect are
those of the read / ext4 branch (the returned triple echoes the original
labels). -/
theorem C10_process_task_fallthrough (cfg : BenchmarkConfig)
    (op st : String) (i : ℕ) (w : World) :
    (op ≠ "write" →
      resultEffect (process_task cfg op st i w) =
        resultEffect (process_task cfg "read" st i w)) ∧
    (st ≠ "leveldb" →
      resultEffect (process_task cfg op st i w) =
        resultEffect (process_task cfg op "ext4" i w)) := by
  have h1 : ¬ ("read" : String) = "write" := by decide
  have h2 : ¬ ("ext4" : String) = "leveldb" := by decide
  constructor
  · intro hop
    by_cases hst : st = "leveldb"
    · simp only [process_task, if_neg hop, if_neg h1, if_pos hst]
      rfl
    · simp only [process_task, if_neg hop, if_neg h1, if_neg hst]
      cases List.lookup ("file_" ++ toString i) w.fs <;> rfl
  · intro hst
    by_cases hop : op = "write"
    · simp only [process_task, if_pos hop, if_neg hst, if_neg h2]
      rfl
    · simp only [process_task, if_neg hop, if_neg hst, if_neg h2]
      cases List.lookup ("file_" ++ toString i) w.fs <;> rfl

/-- Witness for C10 at the unrecognized operation `'delete'` and the
unrecognized backend `'s3'`. -/
theorem C10_witness :
    resultEffect (process_task cfgOne "delete" "leveldb" 0 freshWorld) =
      resultEffect (process_task cfgOne "read" "leveldb" 0 freshWorld) ∧
    resultEffect (process_task cfgOne "write" "s3" 0 freshWorld) =
      resultEffect (process_task cfgOne "write" "ext4" 0 freshWorld) :=
  ⟨(C10_process_task_fallthrough cfgOne "delete" "leveldb" 0 freshWorld).1
      (by decide),
    (C10_process_task_fallthrough cfgOne "write" "s3" 0 freshWorld).2
      (by decide)⟩

/-! ### C9 -/

theorem process_task_setCR (cfg : BenchmarkConfig) (c : ℕ)
    (op st : String) (i : ℕ) (w : World) :
    process_task ⟨cfg.num_files, cfg.file_size, cfg.num_workers, c, cfg.base_path⟩
        op st i w =
      process_task cfg op st i w := rfl

theorem runTasks_setCR (cfg : BenchmarkConfig) (c : ℕ) (op st : String)
    (l : List ℕ) (w : World) :
    runTasks ⟨cfg.num_files, cfg.file_size, cfg.num_workers, c, cfg.base_path⟩
        op st l w =
      runTasks cfg op st l w := by
  induction l generalizing w with
  | nil => rfl
  | cons i is ih =>
    simp only [runTasks, process_task_setCR]
    cases process_task cfg op st i w with
    | none => rfl
    | some p =>
      obtain ⟨r, w1⟩ := p
      dsimp only
      rw [ih]

/-- C9: the `concurrent_requests` configuration field is never consulted by
the execution logic — a pass behaves identically under any two
configurations that differ only in that field, producing the very same
results and world effects. -/
theorem C9_concurrent_requests_unused (cfg : BenchmarkConfig) (c : ℕ)
    (op st : String) (w : World) :
    run_parallel_benchmark (setConcurrentRequests cfg c) op st w =
      run_parallel_benchmark cfg op st w := by
  unfold run_parallel_benchmark
  dsimp only [setConcurrentRequests]
  rw [runTasks_setCR]

/-! ### Branch-level descriptions of `process_task`

One equation per branch of the source's dispatch; every task consumes two
clock ticks and its elapsed time is the difference of the two adjacent
timestamps. -/

theorem process_task_write_leveldb_eq (cfg : BenchmarkConfig) (i : ℕ) (w : World) :
    process_task cfg "write" "leveldb" i w =
      some ((("write" : String), ("leveldb" : String),
          w.timeOf (w.tick + 1) - w.timeOf w.tick),
        ⟨("key_" ++ toString i,
            generate_random_data w.rand w.rpos cfg.file_size) :: w.kv,
          w.fs, w.timeOf, w.tick + 1 + 1, w.rand, w.rpos + cfg.file_size⟩) := rfl

theorem process_task_write_other_eq (cfg : BenchmarkConfig) (st : String)
    (i : ℕ) (w : World) (hst : ¬ st = "leveldb") :
    process_task cfg "write" st i w =
      some ((("write" : String), st, w.timeOf (w.tick + 1) - w.timeOf w.tick),
        ⟨w.kv, ("file_" ++ toString i,
            generate_random_data w.rand w.rpos cfg.file_size) :: w.fs,
          w.timeOf, w.tick + 1 + 1, w.rand, w.rpos + cfg.file_size⟩) := by
  simp only [process_task, if_neg hst]
  rfl

theorem process_task_other_leveldb_eq (cfg : BenchmarkConfig) (op : String)
    (i : ℕ) (w : World) (hop : ¬ op = "write") :
    process_task cfg op "leveldb" i w =
      some ((op, ("leveldb" : String), w.timeOf (w.tick + 1) - w.timeOf w.tick),
        { w with tick := w.tick + 1 + 1 }) := by
  simp only [process_task, if_neg hop]
  rfl

theorem process_task_other_other_eq (cfg : BenchmarkConfig) (op st : String)
    (i : ℕ) (w : World) (hop : ¬ op = "write") (hst : ¬ st = "leveldb") :
    process_task cfg op st i w =
      match List.lookup ("file_" ++ toString i) w.fs with
      | none => none
      | some _ =>
        some ((op, st, w.timeOf (w.tick + 1) - w.timeOf w.tick),
          { w with tick := w.tick + 1 + 1 }) := by
  simp only [process_task, if_neg hop, if_neg hst]

/-! ### C7 -/

/-- C7: the Reporter's throughput for a cell is `num_files / sum(times)`; in
particular, on a results list of `num_files` copies of the same value `T`,
the throughput is `1/T` — exactly, since the embedding computes in `ℚ`, so a
fortiori within floating-point tolerance. -/
theorem C7_throughput_formula (cfg : BenchmarkConfig) (times : List ℚ)
    (s : Summary) (h : summarize cfg times = some s) :
    s.tput = (cfg.num_files : ℚ) / times.sum ∧
    ∀ T : ℚ, T ≠ 0 → times = List.replicate cfg.num_files T →
      s.tput = 1 / T := by
  have hmain : s.tput = (cfg.num_files : ℚ) / times.sum := by
    simp only [summarize, bind, Option.bind_eq_some, mean, throughput] at h
    obtain ⟨avg, havg, sd, hsd, tp, htp, hs⟩ := h
    split at htp
    · exact absurd htp (by simp)
    · obtain rfl := Option.some.inj htp
      obtain rfl := Option.some.inj hs
      rfl
  refine ⟨hmain, ?_⟩
  rintro T hT rfl
  have hsum : (List.replicate cfg.num_files T).sum = (cfg.num_files : ℚ) * T := by
    rw [List.sum_replicate, nsmul_eq_mul]
  have hn : (cfg.num_files : ℚ) ≠ 0 := by
    intro h0
    have : summarize cfg (List.replicate cfg.num_files T) = none := by
      have hz : (List.replicate cfg.num_files T).sum = 0 := by
        rw [hsum, h0, zero_mul]
      simp only [summarize, bind, mean, stdev, throughput, if_pos hz]
      cases hm : (if (List.replicate cfg.num_files T).length = 0 then
          (none : Option ℚ) else some ((List.replicate cfg.num_files T).sum /
            ((List.replicate cfg.num_files T).length : ℚ))) <;>
        cases hsd : (if (List.replicate cfg.num_files T).length < 2 then
            (none : Option ℚ)
          else some (((List.replicate cfg.num_files T).map
              (fun x => (x - (List.replicate cfg.num_files T).sum /
                ((List.replicate cfg.num_files T).length : ℚ)) ^ 2)).sum /
            (((List.replicate cfg.num_files T).length : ℚ) - 1))) <;>
        simp
    rw [this] at h
    exact Option.noConfusion h
  rw [hmain, hsum, div_eq_div_iff (by exact mul_ne_zero hn hT) hT, one_mul,
    mul_comm]

/-- Witness for C7: two samples, both equal to `3`, under a two-file
configuration — the computed throughput is `2/6 = 1/3 = 1/T`. -/
theorem C7_witness :
    (⟨3, 0, 3, 3, 3, 1/3⟩ : Summary).tput = (cfgTwo.num_files : ℚ) / ([3, 3] : List ℚ).sum ∧
    (⟨3, 0, 3, 3, 3, 1/3⟩ : Summary).tput = 1 / (3 : ℚ) := by
  have h := C7_throughput_formula cfgTwo [3, 3] ⟨3, 0, 3, 3, 3, 1/3⟩
    (by with_unfolding_all rfl)
  exact ⟨h.1, h.2 3 (by norm_num) (by with_unfolding_all rfl)⟩

/-! ### C1 -/

theorem process_task_some_inv (cfg : BenchmarkConfig) (op st : String)
    (i : ℕ) (w : World) (r : TimingResult) (w1 : World)
    (h : process_task cfg op st i w = some (r, w1)) :
    w1.timeOf = w.timeOf ∧ r.2.2 = w.timeOf (w.tick + 1) - w.timeOf w.tick := by
  by_cases hop : op = "write"
  · subst hop
    by_cases hst : st = "leveldb"
    · subst hst
      rw [process_task_write_leveldb_eq] at h
      obtain ⟨rfl, rfl⟩ := Prod.mk.injEq .. ▸ Option.some.inj h
      exact ⟨rfl, rfl⟩
    · rw [process_task_write_other_eq cfg st i w hst] at h
      obtain ⟨rfl, rfl⟩ := Prod.mk.injEq .. ▸ Option.some.inj h
      exact ⟨rfl, rfl⟩
  · by_cases hst : st = "leveldb"
    · subst hst
      rw [process_task_other_leveldb_eq cfg op i w hop] at h
      obtain ⟨rfl, rfl⟩ := Prod.mk.injEq .. ▸ Option.some.inj h
      exact ⟨rfl, rfl⟩
    · rw [process_task_other_other_eq cfg op st i w hop hst] at h
      cases hlk : List.lookup ("file_" ++ toString i) w.fs with
      | none => rw [hlk] at h; exact Option.noConfusion h
      | some v =>
        rw [hlk] at h
        obtain ⟨rfl, rfl⟩ := Prod.mk.injEq .. ▸ Option.some.inj h
        exact ⟨rfl, rfl⟩

theorem runTasks_some_inv (cfg : BenchmarkConfig) (op st : String)
    (l : List ℕ) (w : World) (rs : List TimingResult) (w2 : World)
    (h : runTasks cfg op st l w = some (rs, w2)) :
    rs.length = l.length ∧ w2.timeOf = w.timeOf ∧
      (ClockMono w → ∀ r ∈ rs, 0 ≤ r.2.2) := by
  induction l generalizing w rs with
  | nil =>
    obtain ⟨rfl, rfl⟩ := Prod.mk.injEq .. ▸ Option.some.inj h
    exact ⟨rfl, rfl, fun _ r hr => absurd hr (List.not_mem_nil r)⟩
  | cons i is ih =>
    rw [runTasks] at h
    cases hpt : process_task cfg op st i w with
    | none => rw [hpt] at h; exact Option.noConfusion h
    | some p =>
      obtain ⟨r, w1⟩ := p
      rw [hpt] at h
      dsimp only at h
      cases hrt : runTasks cfg op st is w1 with
      | none => rw [hrt] at h; exact Option.noConfusion h
      | some q =>
        obtain ⟨rs1, w2x⟩ := q
        rw [hrt] at h
        dsimp only at h
        obtain ⟨rfl, rfl⟩ := Prod.mk.injEq .. ▸ Option.some.inj h
        obtain ⟨htime1, helapsed⟩ := process_task_some_inv cfg op st i w r w1 hpt
        obtain ⟨hlen, htime2, hnn⟩ := ih w1 rs1 hrt
        refine ⟨by simp [hlen], htime2.trans htime1, ?_⟩
        intro hm r2 hr2
        rcases List.mem_cons.mp hr2 with rfl | hr2
        · rw [helapsed]
          exact sub_nonneg.mpr (hm w.tick)
        · exact hnn (fun n => htime1 ▸ hm n) r2 hr2

/-- C1: whenever `run_parallel_benchmark(operation, backend)` returns, it
returns exactly `num_files` values; if the wall clock is monotone, each value
is non-negative; and the returned list is exactly the elapsed-time component
of each collected result, in collection order. -/
theorem C1_run_parallel_benchmark_spec (cfg : BenchmarkConfig)
    (op st : String) (w : World) (res : List ℚ) (w1 : World)
    (hm : ClockMono w)
    (h : run_parallel_benchmark cfg op st w = some (res, w1)) :
    res.length = cfg.num_files ∧ (∀ t ∈ res, 0 ≤ t) ∧
    ∃ rs, runTasks cfg op st (List.range cfg.num_files) w = some (rs, w1) ∧
      res = rs.map (fun r => r.2.2) := by
  rw [run_parallel_benchmark] at h
  cases hrt : runTasks cfg op st (List.range cfg.num_files) w with
  | none => rw [hrt] at h; exact Option.noConfusion h
  | some q =>
    obtain ⟨rs, w2⟩ := q
    rw [hrt] at h
    obtain ⟨rfl, rfl⟩ := Prod.mk.injEq .. ▸ Option.some.inj h
    obtain ⟨hlen, _, hnn⟩ := runTasks_some_inv cfg op st _ w rs w2 hrt
    refine ⟨by rw [List.length_map, hlen, List.length_range], ?_, rs, rfl, rfl⟩
    intro t ht
    obtain ⟨r, hr, rfl⟩ := List.mem_map.mp ht
    exact hnn hm r hr

theorem freshWorld_clockMono : ClockMono freshWorld := by
  intro n
  show ((n : ℚ) ≤ ((n + 1 : ℕ) : ℚ))
  exact_mod_cast Nat.le_succ n

/-- Witness for C1: a concrete two-file write/ext4 pass on the fresh world
returns the two elapsed times `[1, 1]`. -/
theorem C1_witness :
    ([1, 1] : List ℚ).length = cfgTwo.num_files ∧
    (∀ t ∈ ([1, 1] : List ℚ), 0 ≤ t) ∧
    ∃ rs, runTasks cfgTwo "write" "ext4" (List.range cfgTwo.num_files) freshWorld =
        some (rs, wAfterWrites) ∧
      ([1, 1] : List ℚ) = rs.map (fun r => r.2.2) :=
  C1_run_parallel_benchmark_spec cfgTwo "write" "ext4" freshWorld [1, 1]
    wAfterWrites freshWorld_clockMono (by with_unfolding_all rfl)

/-! ### C6 -/

theorem noneCount_replicate_none (n : ℕ) :
    noneCount (List.replicate n none) = n := by
  induction n with
  | zero => rfl
  | succ m ih =>
    rw [List.replicate_succ, noneCount, List.countP_cons] at *
    simp [ih]

theorem workerTake_noneCount_le_one (q : List (Option (String × String × ℕ))) :
    noneCount (workerTake q) ≤ 1 := by
  induction q with
  | nil => simp [workerTake, noneCount]
  | cons x rest ih =>
    cases x with
    | none => simp [workerTake, noneCount]
    | some t =>
      rw [workerTake, noneCount, List.countP_cons] at *
      simpa using ih

theorem sum_le_length_of_all_le_one (ns : List ℕ) (h : ∀ x ∈ ns, x ≤ 1) :
    ns.sum ≤ ns.length := by
  induction ns with
  | nil => simp
  | cons a l ih =>
    rw [List.sum_cons, List.length_cons]
    have ha := h a (List.mem_cons_self a l)
    have := ih (fun x hx => h x (List.mem_cons_of_mem a hx))
    omega

theorem all_eq_one_of_sum_eq_length (ns : List ℕ) (h1 : ∀ x ∈ ns, x ≤ 1)
    (h2 : ns.sum = ns.length) : ∀ x ∈ ns, x = 1 := by
  induction ns with
  | nil => intro x hx; exact absurd hx (List.not_mem_nil x)
  | cons a l ih =>
    have ha := h1 a (List.mem_cons_self a l)
    have hl1 : ∀ x ∈ l, x ≤ 1 := fun x hx => h1 x (List.mem_cons_of_mem a hx)
    have hlsum := sum_le_length_of_all_le_one l hl1
    rw [List.sum_cons, List.length_cons] at h2
    intro x hx
    rcases List.mem_cons.mp hx with rfl | hx
    · omega
    · exact ih hl1 (by omega) x hx

/-- C6: the queue a pass fills holds the `num_files` tasks first, then
exactly `num_workers` terminators; a worker stops at its first terminator and
so consumes at most one; and in any complete drain of the queue by
`num_workers` workers — any partition of the queue entries into per-worker
pop sequences each of the shape the worker loop produces — every worker
observes exactly one terminator: none starves, none double-terminates. -/
theorem C6_terminators (cfg : BenchmarkConfig) (op st : String) :
    noneCount (taskQueueContents cfg op st) = cfg.num_workers ∧
    (taskQueueContents cfg op st).drop cfg.num_files =
      List.replicate cfg.num_workers none ∧
    (∀ x ∈ (taskQueueContents cfg op st).take cfg.num_files, x.isSome = true) ∧
    (∀ q, noneCount (workerTake q) ≤ 1) ∧
    ∀ ws : List (List (Option (String × String × ℕ))),
      ws.length = cfg.num_workers →
      ws.flatten.Perm (taskQueueContents cfg op st) →
      (∀ wq ∈ ws, ∃ q, wq = workerTake q) →
      ∀ wq ∈ ws, noneCount wq = 1 := by
  have hmaplen : ((List.range cfg.num_files).map
      (fun i => some (op, st, i))).length = cfg.num_files := by
    rw [List.length_map, List.length_range]
  have hcount : noneCount (taskQueueContents cfg op st) = cfg.num_workers := by
    have h1 : List.countP (fun x : Option (String × String × ℕ) => x.isNone)
        ((List.range cfg.num_files).map (fun i => some (op, st, i))) = 0 := by
      refine List.countP_eq_zero.mpr ?_
      intro a hmem
      obtain ⟨i, _, rfl⟩ := List.mem_map.mp hmem
      simp
    rw [taskQueueContents, noneCount, List.countP_append, h1, Nat.zero_add]
    exact noneCount_replicate_none cfg.num_workers
  refine ⟨hcount, ?_, ?_, workerTake_noneCount_le_one, ?_⟩
  · rw [taskQueueContents, List.drop_append_of_le_length (le_of_eq hmaplen.symm),
      List.drop_eq_nil_of_le (le_of_eq hmaplen), List.nil_append]
  · intro x hx
    rw [taskQueueContents, List.take_append_of_le_length
      (le_of_eq hmaplen.symm)] at hx
    obtain ⟨i, _, rfl⟩ := List.mem_map.mp (List.mem_of_mem_take hx)
    rfl
  · intro ws hlen hperm hsem wq hwq
    have hle : ∀ x ∈ ws.map noneCount, x ≤ 1 := by
      intro x hx
      obtain ⟨wq2, hwq2, rfl⟩ := List.mem_map.mp hx
      obtain ⟨q, rfl⟩ := hsem wq2 hwq2
      exact workerTake_noneCount_le_one q
    have hsum : (ws.map noneCount).sum = (ws.map noneCount).length := by
      have hflat : noneCount ws.flatten = (ws.map noneCount).sum := by
        rw [noneCount, List.countP_flatten]
        rfl
      rw [← hflat, noneCount, hperm.countP_eq, ← noneCount, hcount,
        List.length_map, hlen]
    exact all_eq_one_of_sum_eq_length _ hle hsum _
      (List.mem_map_of_mem noneCount hwq)

/-- Witness for C6: one task and two workers; the drain in which worker 1
pops the task and a terminator and worker 2 pops the other terminator gives
each worker exactly one terminator. -/
theorem C6_witness :
    noneCount (taskQueueContents cfgTwoWorkers "write" "ext4") =
      cfgTwoWorkers.num_workers ∧
    ∀ wq ∈ [[some (("write" : String), ("ext4" : String), 0), none], [none]],
      noneCount wq = 1 := by
  have h := C6_terminators cfgTwoWorkers "write" "ext4"
  refine ⟨h.1, h.2.2.2.2 _ rfl ?_ ?_⟩
  · have : ([[some (("write" : String), ("ext4" : String), 0), none],
        [none]]).flatten = taskQueueContents cfgTwoWorkers "write" "ext4" := by
      with_unfolding_all rfl
    rw [this]
  · intro wq hwq
    rcases List.mem_cons.mp hwq with rfl | hwq
    · exact ⟨[some (("write" : String), ("ext4" : String), 0), none], rfl⟩
    rcases List.mem_cons.mp hwq with rfl | hwq
    · exact ⟨[none], rfl⟩
    · exact absurd hwq (List.not_mem_nil wq)

/-! ### C8 -/

theorem interpAt_def (s : List ℚ) (h : ℚ) :
    interpAt s h =
      s.getD (ratFloor h).toNat 0 +
        (h - ((ratFloor h).toNat : ℚ)) *
          (s.getD (min ((ratFloor h).toNat + 1) (s.length - 1)) 0 -
            s.getD (ratFloor h).toNat 0) := rfl

theorem percentile_def (times : List ℚ) (q : ℚ) :
    percentile times q =
      interpAt (List.insertionSort (fun a b : ℚ => a ≤ b) times)
        (q / 100 *
          (((List.insertionSort (fun a b : ℚ => a ≤ b) times).length : ℚ) - 1)) := rfl

theorem ratFloor_toNat_cast_le (h : ℚ) (h0 : 0 ≤ h) :
    (((ratFloor h).toNat : ℕ) : ℚ) ≤ h := by
  have hf : (0 : ℤ) ≤ ⌊h⌋ := Int.floor_nonneg.mpr h0
  have h1 : (((⌊h⌋.toNat : ℕ) : ℤ) : ℚ) = ((⌊h⌋ : ℤ) : ℚ) := by
    rw [Int.toNat_of_nonneg hf]
  rw [ratFloor_eq_floor, ← Int.cast_natCast, h1]
  exact Int.floor_le h

theorem lt_ratFloor_toNat_cast_add_one (h : ℚ) (h0 : 0 ≤ h) :
    h < (((ratFloor h).toNat : ℕ) : ℚ) + 1 := by
  have hf : (0 : ℤ) ≤ ⌊h⌋ := Int.floor_nonneg.mpr h0
  have h1 : (((⌊h⌋.toNat : ℕ) : ℤ) : ℚ) = ((⌊h⌋ : ℤ) : ℚ) := by
    rw [Int.toNat_of_nonneg hf]
  rw [ratFloor_eq_floor, ← Int.cast_natCast, h1]
  exact Int.lt_floor_add_one h

theorem ratFloor_toNat_mono (h1 h2 : ℚ) (h12 : h1 ≤ h2) :
    (ratFloor h1).toNat ≤ (ratFloor h2).toNat := by
  rw [ratFloor_eq_floor, ratFloor_eq_floor]
  exact Int.toNat_le_toNat (Int.floor_mono h12)

theorem ratFloor_toNat_le_of_le_natCast (h : ℚ) (m : ℕ) (hub : h ≤ (m : ℚ)) :
    (ratFloor h).toNat ≤ m := by
  rw [ratFloor_eq_floor, Int.toNat_le]
  calc ⌊h⌋ ≤ ⌊(m : ℚ)⌋ := Int.floor_mono hub
  _ = (m : ℤ) := Int.floor_natCast m

theorem getD_sorted_mono (s : List ℚ)
    (hs : List.Sorted (fun a b : ℚ => a ≤ b) s) (i j : ℕ)
    (hij : i ≤ j) (hj : j < s.length) : s.getD i 0 ≤ s.getD j 0 := by
  have hi : i < s.length := lt_of_le_of_lt hij hj
  rw [List.getD_eq_getElem?_getD, List.getD_eq_getElem?_getD,
    List.getElem?_eq_getElem hi, List.getElem?_eq_getElem hj]
  simp only [Option.getD_some]
  have hr := @List.Sorted.rel_get_of_le ℚ (fun a b : ℚ => a ≤ b) _ s hs
    ⟨i, hi⟩ ⟨j, hj⟩ hij
  simpa using hr

/-- Linear interpolation into a sorted list is monotone in the virtual
index, as long as the index stays within the sample range. -/
theorem interpAt_le_interpAt (s : List ℚ)
    (hs : List.Sorted (fun a b : ℚ => a ≤ b) s) (hn : 1 ≤ s.length)
    (h1 h2 : ℚ) (h10 : 0 ≤ h1) (h12 : h1 ≤ h2)
    (h2ub : h2 ≤ (s.length : ℚ) - 1) :
    interpAt s h1 ≤ interpAt s h2 := by
  have h20 : 0 ≤ h2 := le_trans h10 h12
  have h1ub : h1 ≤ (s.length : ℚ) - 1 := le_trans h12 h2ub
  have hcast : ((s.length - 1 : ℕ) : ℚ) = (s.length : ℚ) - 1 := by
    rw [Nat.cast_sub hn, Nat.cast_one]
  have hk1n : (ratFloor h1).toNat ≤ s.length - 1 :=
    ratFloor_toNat_le_of_le_natCast h1 (s.length - 1) (by rw [hcast]; exact h1ub)
  have hk2n : (ratFloor h2).toNat ≤ s.length - 1 :=
    ratFloor_toNat_le_of_le_natCast h2 (s.length - 1) (by rw [hcast]; exact h2ub)
  have hk12 : (ratFloor h1).toNat ≤ (ratFloor h2).toNat :=
    ratFloor_toNat_mono h1 h2 h12
  have hf1l : (((ratFloor h1).toNat : ℕ) : ℚ) ≤ h1 := ratFloor_toNat_cast_le h1 h10
  have hf1u : h1 < (((ratFloor h1).toNat : ℕ) : ℚ) + 1 :=
    lt_ratFloor_toNat_cast_add_one h1 h10
  have hf2l : (((ratFloor h2).toNat : ℕ) : ℚ) ≤ h2 := ratFloor_toNat_cast_le h2 h20
  have hm1lt : min ((ratFloor h1).toNat + 1) (s.length - 1) < s.length :=
    lt_of_le_of_lt (min_le_right _ _) (by omega)
  have hk2lt : (ratFloor h2).toNat < s.length := by omega
  have hab1 : s.getD (ratFloor h1).toNat 0 ≤
      s.getD (min ((ratFloor h1).toNat + 1) (s.length - 1)) 0 :=
    getD_sorted_mono s hs _ _ (le_min (Nat.le_succ _) hk1n) hm1lt
  have hab2 : s.getD (ratFloor h2).toNat 0 ≤
      s.getD (min ((ratFloor h2).toNat + 1) (s.length - 1)) 0 :=
    getD_sorted_mono s hs _ _
      (le_min (Nat.le_succ _) hk2n)
      (lt_of_le_of_lt (min_le_right _ _) (by omega))
  rcases lt_or_eq_of_le hk12 with hlt | heq
  · have hv1 : interpAt s h1 ≤
        s.getD (min ((ratFloor h1).toNat + 1) (s.length - 1)) 0 := by
      rw [interpAt_def]
      nlinarith [hab1, hf1u, hf1l]
    have hmid : s.getD (min ((ratFloor h1).toNat + 1) (s.length - 1)) 0 ≤
        s.getD (ratFloor h2).toNat 0 :=
      getD_sorted_mono s hs _ _ (le_trans (min_le_left _ _) hlt) hk2lt
    have hv2 : s.getD (ratFloor h2).toNat 0 ≤ interpAt s h2 := by
      rw [interpAt_def]
      nlinarith [hab2, hf2l]
    linarith
  · rw [interpAt_def, interpAt_def, ← heq]
    nlinarith [hab1, h12, hf1l]

/-- `np.percentile` with linear interpolation is monotone in the requested
percentile rank. -/
theorem percentile_mono (times : List ℚ) (hne : times ≠ []) (q1 q2 : ℚ)
    (hq0 : 0 ≤ q1) (hq12 : q1 ≤ q2) (hq100 : q2 ≤ 100) :
    percentile times q1 ≤ percentile times q2 := by
  have hs := List.sorted_insertionSort (fun a b : ℚ => a ≤ b) times
  have hlen : (List.insertionSort (fun a b : ℚ => a ≤ b) times).length =
      times.length := List.length_insertionSort _ times
  have hn : 1 ≤ (List.insertionSort (fun a b : ℚ => a ≤ b) times).length := by
    rw [hlen]
    exact List.length_pos.mpr hne
  have hnQ : (1 : ℚ) ≤
      ((List.insertionSort (fun a b : ℚ => a ≤ b) times).length : ℚ) := by
    exact_mod_cast hn
  rw [percentile_def, percentile_def]
  refine interpAt_le_interpAt _ hs hn _ _ ?_ ?_ ?_
  · exact mul_nonneg (div_nonneg hq0 (by norm_num)) (by linarith)
  · refine mul_le_mul_of_nonneg_right ?_ (by linarith)
    exact div_le_div_of_nonneg_right hq12 (by norm_num)
  · have hone : q2 / 100 ≤ 1 := by
      rw [div_le_one (by norm_num : (0 : ℚ) < 100)]
      exact hq100
    exact mul_le_of_le_one_left (by linarith) hone

/-- C8: for every non-empty list of elapsed times, the percentiles computed
by `calculate_percentiles` (linear interpolation) are monotone:
`p50 ≤ p95 ≤ p99`. -/
theorem C8_percentiles_monotone (times : List ℚ) (hne : times ≠ []) :
    (calculate_percentiles times).p50 ≤ (calculate_percentiles times).p95 ∧
    (calculate_percentiles times).p95 ≤ (calculate_percentiles times).p99 :=
  ⟨percentile_mono times hne 50 95 (by norm_num) (by norm_num) (by norm_num),
   percentile_mono times hne 95 99 (by norm_num) (by norm_num) (by norm_num)⟩

/-- Witness for C8 on a concrete unsorted two-sample list. -/
theorem C8_witness :
    (calculate_percentiles [2, 1]).p50 ≤ (calculate_percentiles [2, 1]).p95 ∧
    (calculate_percentiles [2, 1]).p95 ≤ (calculate_percentiles [2, 1]).p99 :=
  C8_percentiles_monotone [2, 1] (by decide)

/-! ### C5 -/

theorem lookup_cons_isSome (p k v : String) (l : List (String × String))
    (h : (List.lookup p l).isSome = true) :
    (List.lookup p ((k, v) :: l)).isSome = true := by
  cases hpk : p == k <;> simp [List.lookup, hpk, h]

theorem lookup_cons_self_isSome (k v : String) (l : List (String × String)) :
    (List.lookup k ((k, v) :: l)).isSome = true := by
  simp [List.lookup]

theorem runTasks_write_leveldb_some (cfg : BenchmarkConfig) (l : List ℕ) :
    ∀ w : World, ∃ rs w1, runTasks cfg "write" "leveldb" l w = some (rs, w1) ∧
      rs.length = l.length ∧ w1.fs = w.fs := by
  induction l with
  | nil => exact fun w => ⟨[], w, rfl, rfl, rfl⟩
  | cons i is ih =>
    intro w
    obtain ⟨rs, w1, hrun, hlen, hfs⟩ := ih ⟨("key_" ++ toString i,
      generate_random_data w.rand w.rpos cfg.file_size) :: w.kv, w.fs, w.timeOf,
      w.tick + 1 + 1, w.rand, w.rpos + cfg.file_size⟩
    refine ⟨(("write", "leveldb",
      w.timeOf (w.tick + 1) - w.timeOf w.tick) : TimingResult) :: rs, w1, ?_,
      by simp [hlen], hfs⟩
    rw [runTasks, process_task_write_leveldb_eq]
    dsimp only
    rw [hrun]

theorem runTasks_write_ext4_some (cfg : BenchmarkConfig) (l : List ℕ) :
    ∀ w : World, ∃ rs w1, runTasks cfg "write" "ext4" l w = some (rs, w1) ∧
      rs.length = l.length ∧
      (∀ p, (List.lookup p w.fs).isSome = true →
        (List.lookup p w1.fs).isSome = true) ∧
      (∀ i ∈ l, (List.lookup ("file_" ++ toString i) w1.fs).isSome = true) := by
  induction l with
  | nil =>
    exact fun w => ⟨[], w, rfl, rfl, fun p h => h,
      fun i hi => absurd hi (List.not_mem_nil i)⟩
  | cons i is ih =>
    intro w
    obtain ⟨rs, w1, hrun, hlen, hpres, hmem⟩ := ih ⟨w.kv, ("file_" ++ toString i,
      generate_random_data w.rand w.rpos cfg.file_size) :: w.fs, w.timeOf,
      w.tick + 1 + 1, w.rand, w.rpos + cfg.file_size⟩
    refine ⟨(("write", "ext4",
      w.timeOf (w.tick + 1) - w.timeOf w.tick) : TimingResult) :: rs, w1, ?_,
      by simp [hlen], ?_, ?_⟩
    · rw [runTasks, process_task_write_other_eq cfg "ext4" i w (by decide)]
      dsimp only
      rw [hrun]
    · intro p hp
      exact hpres p (lookup_cons_isSome p _ _ w.fs hp)
    · intro j hj
      rcases List.mem_cons.mp hj with rfl | hj
      · exact hpres _ (lookup_cons_self_isSome _ _ w.fs)
      · exact hmem j hj

theorem runTasks_read_leveldb_some (cfg : BenchmarkConfig) (l : List ℕ) :
    ∀ w : World, ∃ rs w1, runTasks cfg "read" "leveldb" l w = some (rs, w1) ∧
      rs.length = l.length ∧ w1.fs = w.fs := by
  induction l with
  | nil => exact fun w => ⟨[], w, rfl, rfl, rfl⟩
  | cons i is ih =>
    intro w
    obtain ⟨rs, w1, hrun, hlen, hfs⟩ :=
      ih ⟨w.kv, w.fs, w.timeOf, w.tick + 1 + 1, w.rand, w.rpos⟩
    refine ⟨(("read", "leveldb",
      w.timeOf (w.tick + 1) - w.timeOf w.tick) : TimingResult) :: rs, w1, ?_,
      by simp [hlen], hfs⟩
    rw [runTasks, process_task_other_leveldb_eq cfg "read" i w (by decide)]
    dsimp only
    rw [hrun]

theorem runTasks_read_ext4_some (cfg : BenchmarkConfig) (l : List ℕ) :
    ∀ w : World, (∀ i ∈ l, (List.lookup ("file_" ++ toString i) w.fs).isSome = true) →
      ∃ rs w1, runTasks cfg "read" "ext4" l w = some (rs, w1) ∧
        rs.length = l.length ∧ w1.fs = w.fs := by
  induction l with
  | nil => exact fun w _ => ⟨[], w, rfl, rfl, rfl⟩
  | cons i is ih =>
    intro w hall
    obtain ⟨v, hv⟩ := Option.isSome_iff_exists.mp
      (hall i (List.mem_cons_self i is))
    obtain ⟨rs, w1, hrun, hlen, hfs⟩ :=
      ih ⟨w.kv, w.fs, w.timeOf, w.tick + 1 + 1, w.rand, w.rpos⟩
        (fun j hj => hall j (List.mem_cons_of_mem i hj))
    refine ⟨(("read", "ext4",
      w.timeOf (w.tick + 1) - w.timeOf w.tick) : TimingResult) :: rs, w1, ?_,
      by simp [hlen], hfs⟩
    rw [runTasks, process_task_other_other_eq cfg "read" "ext4" i w
      (by decide) (by decide), hv]
    dsimp only
    rw [hrun]

/-- C5: from any starting world, `run_benchmark` executes its four passes in
the fixed order write/leveldb, write/ext4, read/leveldb, read/ext4; each pass
completes with `num_files` samples (the reads succeed exactly because the
write passes ran first), and the Reporter is applied to the fully assembled
results table. -/
theorem C5_run_benchmark_order (cfg : BenchmarkConfig) (w : World) :
    ∃ out : RunOutput, run_benchmark cfg w = some out ∧
      out.passTrace = [("write", "leveldb"), ("write", "ext4"),
        ("read", "leveldb"), ("read", "ext4")] ∧
      out.report = print_results cfg out.results ∧
      out.results.write_leveldb.length = cfg.num_files ∧
      out.results.write_ext4.length = cfg.num_files ∧
      out.results.read_leveldb.length = cfg.num_files ∧
      out.results.read_ext4.length = cfg.num_files := by
  obtain ⟨rs1, w1, h1, len1, fs1⟩ :=
    runTasks_write_leveldb_some cfg (List.range cfg.num_files) w
  obtain ⟨rs2, w2, h2, len2, pres2, mem2⟩ :=
    runTasks_write_ext4_some cfg (List.range cfg.num_files) w1
  obtain ⟨rs3, w3, h3, len3, fs3⟩ :=
    runTasks_read_leveldb_some cfg (List.range cfg.num_files) w2
  obtain ⟨rs4, w4, h4, len4, fs4⟩ :=
    runTasks_read_ext4_some cfg (List.range cfg.num_files) w3
      (by intro i hi; rw [fs3]; exact mem2 i hi)
  have hrb : run_benchmark cfg w = some
      ⟨[("write", "leveldb"), ("write", "ext4"),
        ("read", "leveldb"), ("read", "ext4")],
      ⟨rs1.map (fun r => r.2.2), rs2.map (fun r => r.2.2),
        rs3.map (fun r => r.2.2), rs4.map (fun r => r.2.2)⟩,
      print_results cfg ⟨rs1.map (fun r => r.2.2), rs2.map (fun r => r.2.2),
        rs3.map (fun r => r.2.2), rs4.map (fun r => r.2.2)⟩, w4⟩ := by
    simp only [run_benchmark, run_parallel_benchmark, bind, Option.bind, h1, h2,
      h3, h4]
  refine ⟨_, hrb, rfl, rfl, ?_, ?_, ?_, ?_⟩
  · rw [List.length_map, len1, List.length_range]
  · rw [List.length_map, len2, List.length_range]
  · rw [List.length_map, len3, List.length_range]
  · rw [List.length_map, len4, List.length_range]

end Benchmark
